import Mathlib

/-!
Shallow embedding of the user-management UI (UserList, User, UserForm, App).

The record collection, pagination and the add/edit/delete handlers live in
`UserList`; the row-level name derivation lives in `User`; form validation and
submission live in `UserForm`.  React state is modelled as an explicit
`StoreState` record, network calls as `Except` parameters supplied by the
environment, and toast notifications as an output log.
-/

/-- The JavaScript number values this app can actually produce for an id:
ordinary integers, plus `-Infinity`, which is what `Math.max(...[])` returns
when the spread argument list is empty. -/
inductive JSNum where
  | negInf : JSNum
  | int : Int → JSNum
deriving DecidableEq, Repr

/-- `Math.max` on two JavaScript numbers (no `NaN` in this app's id domain);
`-Infinity` is the identity. -/
def JSNum.max : JSNum → JSNum → JSNum
  | negInf, b => b
  | int m, negInf => int m
  | int m, int n => int (Max.max m n)

/-- Adding the JavaScript literal `1`: `-Infinity + 1` is `-Infinity`. -/
def JSNum.add1 : JSNum → JSNum
  | negInf => negInf
  | int n => int (n + 1)

/-- The `<=` order on these JavaScript numbers. -/
def JSNum.le : JSNum → JSNum → Bool
  | negInf, _ => true
  | int _, negInf => false
  | int m, int n => m ≤ n

/-- `Math.max(...l)`: the fold of binary max over the spread arguments,
returning `-Infinity` when the list is empty. -/
def mathMax (l : List JSNum) : JSNum :=
  l.foldl JSNum.max JSNum.negInf

/-- The nested `company` object of a user record. -/
structure Company where
  name : String
deriving DecidableEq, Repr

/-- A user record as held in the `users` state of `UserList`. -/
structure UserRecord where
  id : JSNum
  name : String
  email : String
  company : Company
deriving DecidableEq, Repr

/-- A toast notification (`toast.success` / `toast.error`). -/
inductive Toast where
  | success : String → Toast
  | error : String → Toast
deriving DecidableEq, Repr

/-- The state owned by the `UserList` component, plus the log of toasts it has
emitted. -/
structure StoreState where
  users : List UserRecord
  error : Option String
  showForm : Bool
  selectedUser : Option UserRecord
  currentPage : Nat
  toasts : List Toast
deriving DecidableEq, Repr

/-- `fetchUsers`: `GET /users`; on success replace `users` with the response
data, on failure store the message and toast an error. -/
def fetchUsers (result : Except String (List UserRecord)) (s : StoreState) :
    StoreState :=
  match result with
  | .ok data => { s with users := data }
  | .error msg =>
      { s with error := some msg,
               toasts := s.toasts ++ [Toast.error "Failed to fetch users."] }

/-- `handleAddOrEditUser`: with a selection, replace the entry whose `id`
matches; otherwise append the draft with id `Math.max(...ids) + 1`.  Either
way toast a success and close the form. -/
def handleAddOrEditUser (user : UserRecord) (s : StoreState) : StoreState :=
  match s.selectedUser with
  | some _ =>
      { s with
          users := s.users.map (fun u => if u.id = user.id then user else u),
          toasts := s.toasts ++ [Toast.success "User updated successfully!"],
          showForm := false }
  | none =>
      let newUser : UserRecord :=
        { user with id := (mathMax (s.users.map (fun u => u.id))).add1 }
      { s with
          users := s.users ++ [newUser],
          toasts := s.toasts ++ [Toast.success "User added successfully!"],
          showForm := false }

/-- `handleDeleteUser`: `DELETE /users/{id}`; on success filter the entry out
and toast a success, on failure store the message and toast an error. -/
def handleDeleteUser (netResult : Except String Unit) (id : JSNum)
    (s : StoreState) : StoreState :=
  match netResult with
  | .ok _ =>
      { s with
          users := s.users.filter (fun user => user.id != id),
          toasts := s.toasts ++ [Toast.success "User deleted successfully!"] }
  | .error msg =>
      { s with error := some msg,
               toasts := s.toasts ++ [Toast.error "Failed to delete user."] }

/-- `handleEditUser`: select the record and open the form. -/
def handleEditUser (userData : UserRecord) (s : StoreState) : StoreState :=
  { s with selectedUser := some userData, showForm := true }

/-- `paginate`: set the current page pointer. -/
def paginate (pageNumber : Nat) (s : StoreState) : StoreState :=
  { s with currentPage := pageNumber }

/-- `usersPerPage = 13`. -/
def usersPerPage : Nat := 13

/-- `indexOfLastUser = currentPage * usersPerPage`. -/
def indexOfLastUser (currentPage : Nat) : Nat :=
  currentPage * usersPerPage

/-- `indexOfFirstUser = indexOfLastUser - usersPerPage` (the component keeps
`currentPage ≥ 1`, where this subtraction does not underflow). -/
def indexOfFirstUser (currentPage : Nat) : Nat :=
  indexOfLastUser currentPage - usersPerPage

/-- `Array.prototype.slice(start, stop)` for `0 ≤ start ≤ stop`. -/
def sliceList (l : List UserRecord) (start stop : Nat) : List UserRecord :=
  (l.drop start).take (stop - start)

/-- `currentUsers = users.slice(indexOfFirstUser, indexOfLastUser)`. -/
def currentUsers (users : List UserRecord) (currentPage : Nat) :
    List UserRecord :=
  sliceList users (indexOfFirstUser currentPage) (indexOfLastUser currentPage)

/-- `Math.ceil(users.length / usersPerPage)` as ceiling division on naturals. -/
def lastPage (users : List UserRecord) : Nat :=
  (users.length + usersPerPage - 1) / usersPerPage

/-- The Prev button's `disabled={currentPage === 1}`. -/
def prevDisabled (s : StoreState) : Bool :=
  s.currentPage == 1

/-- The Next button's
`disabled={currentPage === Math.ceil(users.length / usersPerPage)}`. -/
def nextDisabled (s : StoreState) : Bool :=
  s.currentPage == lastPage s.users

/-! ## Row component (`User`) -/

/-- JavaScript `String.prototype.split(" ")` on the character list of a
string: splits at every single space, keeping empty segments. -/
def splitSpaces : List Char → List (List Char)
  | [] => [[]]
  | c :: cs =>
      if c = ' ' then [] :: splitSpaces cs
      else
        match splitSpaces cs with
        | [] => [[c]]
        | t :: ts => (c :: t) :: ts

/-- `nameParts = (userData.name || "").split(" ")`. -/
def nameParts (userData : UserRecord) : List (List Char) :=
  splitSpaces userData.name.data

/-- `firstName = nameParts[0] || ""`. -/
def firstName (userData : UserRecord) : List Char :=
  (nameParts userData).headD []

/-- `lastName = nameParts[1] || ""`. -/
def lastName (userData : UserRecord) : List Char :=
  (nameParts userData).getD 1 []

/-- `department = userData.company?.name || ""`. -/
def department (userData : UserRecord) : String :=
  userData.company.name

/-- Spec reading, for comparison: the text before the first space. -/
def beforeFirstSpace (name : List Char) : List Char :=
  name.takeWhile (fun c => c != ' ')

/-- Spec reading, for comparison: the text after the first space (everything
past it; empty when there is no space). -/
def afterFirstSpace (name : List Char) : List Char :=
  (name.dropWhile (fun c => c != ' ')).drop 1

/-! ## Form component (`UserForm`) -/

/-- The form's draft state. -/
structure FormData where
  name : String
  email : String
  company : Company
deriving DecidableEq, Repr

/-- `handleSubmit` of `UserForm`, composed with the store callback it invokes:
returns the resulting store state, the form's local error, and whether a
network request was issued.  The validation guard `!formData.name ||
!formData.email || !formData.company.name` is the empty-string test, the only
falsy string. -/
def handleSubmit (formData : FormData) (netResult : Except String UserRecord)
    (s : StoreState) : StoreState × Option String × Bool :=
  if formData.name = "" ∨ formData.email = "" ∨ formData.company.name = "" then
    (s, some "All fields are required.", false)
  else
    match netResult with
    | .ok response =>
        ({ handleAddOrEditUser response s with selectedUser := none },
         none, true)
    | .error msg => (s, some msg, true)

/-! ## Helper lemmas about `Math.max` over a spread list -/

theorem JSNum.le_rfl (a : JSNum) : a.le a = true := by
  cases a <;> simp [JSNum.le]

theorem JSNum.le_trans {a b c : JSNum} (hab : a.le b = true)
    (hbc : b.le c = true) : a.le c = true := by
  cases a <;> cases b <;> cases c <;> simp [JSNum.le] at * <;> omega

theorem JSNum.le_max_left (a b : JSNum) : a.le (a.max b) = true := by
  cases a <;> cases b <;> simp [JSNum.le, JSNum.max]

theorem JSNum.le_max_right (a b : JSNum) : b.le (a.max b) = true := by
  cases a <;> cases b <;> simp [JSNum.le, JSNum.max]

theorem JSNum.max_eq_or (a b : JSNum) : a.max b = a ∨ a.max b = b := by
  cases a <;> cases b <;> simp [JSNum.max]
  omega

theorem le_foldl_max (l : List JSNum) (a : JSNum) :
    a.le (l.foldl JSNum.max a) = true := by
  induction l generalizing a with
  | nil => exact JSNum.le_rfl a
  | cons b t ih =>
      exact JSNum.le_trans (JSNum.le_max_left a b) (ih (a.max b))

theorem mem_le_foldl_max (l : List JSNum) (a x : JSNum) (hx : x ∈ l) :
    x.le (l.foldl JSNum.max a) = true := by
  induction l generalizing a with
  | nil => exact absurd hx (List.not_mem_nil x)
  | cons b t ih =>
      rcases List.mem_cons.mp hx with rfl | h
      · exact JSNum.le_trans (JSNum.le_max_right a x) (le_foldl_max t (a.max x))
      · exact ih (a.max b) h

theorem foldl_max_mem (l : List JSNum) (a : JSNum) :
    l.foldl JSNum.max a = a ∨ l.foldl JSNum.max a ∈ l := by
  induction l generalizing a with
  | nil => exact Or.inl rfl
  | cons b t ih =>
      rcases ih (a.max b) with h | h
      · rcases JSNum.max_eq_or a b with h2 | h2
        · exact Or.inl (by rw [List.foldl_cons, h, h2])
        · exact Or.inr (by rw [List.foldl_cons, h, h2]; exact List.mem_cons_self b t)
      · exact Or.inr (List.mem_cons_of_mem b h)

theorem mathMax_mem {l : List JSNum} (h : l ≠ []) : mathMax l ∈ l := by
  match l, h with
  | b :: t, _ =>
      have hbt : mathMax (b :: t) = t.foldl JSNum.max b := rfl
      rw [hbt]
      rcases foldl_max_mem t b with h2 | h2
      · rw [h2]; exact List.mem_cons_self b t
      · exact List.mem_cons_of_mem b h2

theorem mem_le_mathMax {l : List JSNum} {x : JSNum} (hx : x ∈ l) :
    x.le (mathMax l) = true :=
  mem_le_foldl_max l JSNum.negInf x hx

theorem add1_mathMax_not_mem (l : List JSNum)
    (hfin : ∀ x ∈ l, x ≠ JSNum.negInf) : (mathMax l).add1 ∉ l := by
  intro hmem
  have hle := mem_le_mathMax hmem
  cases hmax : mathMax l with
  | negInf => exact hfin _ hmem (by rw [hmax]; rfl)
  | int n =>
      rw [hmax] at hle
      simp [JSNum.add1, JSNum.le] at hle

/-! ## Sample data for witnesses -/

def u1 : UserRecord :=
  { id := JSNum.int 1, name := "Leanne Graham", email := "l@x.com",
    company := { name := "Romaguera" } }

def u2 : UserRecord :=
  { id := JSNum.int 2, name := "Ervin Howell", email := "e@x.com",
    company := { name := "Deckow" } }

def janeDraft : UserRecord :=
  { id := JSNum.int 0, name := "Jane Doe", email := "j@x.com",
    company := { name := "Eng" } }

def baseState : StoreState :=
  { users := [u1], error := none, showForm := true, selectedUser := none,
    currentPage := 1, toasts := [] }

/-! ## Claims -/

/-- C1: with no record selected for editing and a non-empty collection, Add
appends exactly one record at the end; the appended record is the draft with
id `Math.max(...previous ids) + 1`, where `mathMax` is genuinely the maximum
of the previous ids (it is one of them and bounds them all). -/
theorem add_assigns_max_plus_one (user : UserRecord) (s : StoreState)
    (hsel : s.selectedUser = none) (hne : s.users ≠ []) :
    (handleAddOrEditUser user s).users.length = s.users.length + 1 ∧
    (handleAddOrEditUser user s).users.take s.users.length = s.users ∧
    (handleAddOrEditUser user s).users.getLast? =
      some { user with id := (mathMax (s.users.map (fun u => u.id))).add1 } ∧
    mathMax (s.users.map (fun u => u.id)) ∈ s.users.map (fun u => u.id) ∧
    ∀ u ∈ s.users, (u.id.le (mathMax (s.users.map (fun u => u.id)))) = true := by
  refine ⟨?_, ?_, ?_, ?_, ?_⟩
  · simp [handleAddOrEditUser, hsel]
  · simp [handleAddOrEditUser, hsel, List.take_left]
  · simp [handleAddOrEditUser, hsel]
  · exact mathMax_mem (by simpa using hne)
  · intro u hu
    exact mem_le_mathMax (List.mem_map_of_mem (fun u => u.id) hu)

theorem add_assigns_max_plus_one_witness :
    baseState.selectedUser = none ∧ baseState.users ≠ [] ∧
    (handleAddOrEditUser janeDraft baseState).users.length =
      baseState.users.length + 1 ∧
    (handleAddOrEditUser janeDraft baseState).users.getLast? =
      some { janeDraft with id := JSNum.int 2 } := by
  have h := add_assigns_max_plus_one janeDraft baseState rfl (by decide)
  refine ⟨rfl, by decide, h.1, ?_⟩
  have h3 := h.2.2.1
  simpa [baseState, u1, mathMax, JSNum.max, JSNum.add1] using h3

/-- C2: with a record selected for editing, Add-or-Edit keeps the collection
length unchanged and, position by position, replaces exactly the entries
whose id matches the submitted record with that record, leaving every other
entry unchanged in its original position. -/
theorem edit_replaces_matching_entry (user sel : UserRecord) (s : StoreState)
    (hsel : s.selectedUser = some sel) :
    (handleAddOrEditUser user s).users.length = s.users.length ∧
    ∀ i : Nat, (handleAddOrEditUser user s).users[i]? =
      (s.users[i]?).map (fun u => if u.id = user.id then user else u) := by
  constructor
  · simp [handleAddOrEditUser, hsel]
  · intro i
    simp [handleAddOrEditUser, hsel, List.getElem?_map]

def u1edited : UserRecord :=
  { id := JSNum.int 1, name := "Leanne G", email := "lg@x.com",
    company := { name := "R2" } }

def editState : StoreState :=
  { users := [u1, u2], error := none, showForm := true,
    selectedUser := some u1, currentPage := 1, toasts := [] }

theorem edit_replaces_matching_entry_witness :
    editState.selectedUser = some u1 ∧
    (handleAddOrEditUser u1edited editState).users.length =
      editState.users.length ∧
    (handleAddOrEditUser u1edited editState).users[0]? = some u1edited ∧
    (handleAddOrEditUser u1edited editState).users[1]? = some u2 := by
  have h := edit_replaces_matching_entry u1edited u1 editState rfl
  exact ⟨rfl, h.1, by decide, by decide⟩

/-- C3: after a successful Delete(id), no record with that id remains, the
surviving records form a subsequence of the original collection (unchanged,
in their original relative order), and every record with a different id
survives with its multiplicity intact. -/
theorem delete_removes_exactly_matching (id : JSNum) (s : StoreState) :
    (∀ u ∈ (handleDeleteUser (.ok ()) id s).users, u.id ≠ id) ∧
    (handleDeleteUser (.ok ()) id s).users.Sublist s.users ∧
    (∀ u ∈ s.users, u.id ≠ id → u ∈ (handleDeleteUser (.ok ()) id s).users) ∧
    (∀ u : UserRecord, u.id ≠ id →
      (handleDeleteUser (.ok ()) id s).users.count u = s.users.count u) := by
  refine ⟨?_, ?_, ?_, ?_⟩
  · intro u hu
    simp [handleDeleteUser, List.mem_filter] at hu
    exact hu.2
  · exact List.filter_sublist s.users
  · intro u hu hne
    simp [handleDeleteUser, List.mem_filter]
    exact ⟨hu, hne⟩
  · intro u hne
    exact List.count_filter (by simpa using hne)

/-- C4: a failed Load or Delete network request stores the error message,
emits an error toast, and leaves the record collection exactly as it was. -/
theorem network_failure_leaves_collection (msg : String) (id : JSNum)
    (s : StoreState) :
    (fetchUsers (.error msg) s).users = s.users ∧
    (fetchUsers (.error msg) s).error = some msg ∧
    (fetchUsers (.error msg) s).toasts =
      s.toasts ++ [Toast.error "Failed to fetch users."] ∧
    (handleDeleteUser (.error msg) id s).users = s.users ∧
    (handleDeleteUser (.error msg) id s).error = some msg ∧
    (handleDeleteUser (.error msg) id s).toasts =
      s.toasts ++ [Toast.error "Failed to delete user."] :=
  ⟨rfl, rfl, rfl, rfl, rfl, rfl⟩

/-- C5: submitting the form with any of `name`, `email`, `company.name` empty
sets the local validation error, issues no network request, and leaves the
store (the record collection included) unchanged. -/
theorem empty_field_blocks_submit (formData : FormData)
    (netResult : Except String UserRecord) (s : StoreState)
    (h : formData.name = "" ∨ formData.email = "" ∨
      formData.company.name = "") :
    handleSubmit formData netResult s =
      (s, some "All fields are required.", false) := by
  unfold handleSubmit
  rw [if_pos h]

def emptyNameDraft : FormData :=
  { name := "", email := "j@x.com", company := { name := "Eng" } }

theorem empty_field_blocks_submit_witness :
    (emptyNameDraft.name = "" ∨ emptyNameDraft.email = "" ∨
      emptyNameDraft.company.name = "") ∧
    handleSubmit emptyNameDraft (.ok janeDraft) baseState =
      (baseState, some "All fields are required.", false) :=
  ⟨Or.inl rfl,
   empty_field_blocks_submit emptyNameDraft (.ok janeDraft) baseState
     (Or.inl rfl)⟩

/-- C6: for a non-empty collection and a page `p` in the valid range, the
visible slice is exactly the records at zero-based offsets `[(p-1)*13, p*13)`
(element `i` of the slice is element `(p-1)*13 + i` of the collection, and
the slice has no element at `i ≥ 13`); the slice never holds more than 13
records; and on the last page it holds `total % 13` records (or 13 when the
total is an exact multiple of 13). -/
theorem page_slice_bounds (users : List UserRecord) (p : Nat)
    (hp1 : 1 ≤ p) (hp2 : p ≤ lastPage users) (hne : users ≠ []) :
    (∀ i : Nat, (currentUsers users p)[i]? =
      if i < 13 then users[(p - 1) * 13 + i]? else none) ∧
    (currentUsers users p).length ≤ 13 ∧
    (p = lastPage users →
      (currentUsers users p).length =
        if users.length % 13 = 0 then 13 else users.length % 13) := by
  have hfirst : indexOfFirstUser p = (p - 1) * 13 := by
    unfold indexOfFirstUser indexOfLastUser usersPerPage; omega
  have htake : indexOfLastUser p - (p - 1) * 13 = 13 := by
    unfold indexOfLastUser usersPerPage; omega
  have hn : users.length ≠ 0 := fun h => hne (List.length_eq_zero.mp h)
  refine ⟨?_, ?_, ?_⟩
  · intro i
    simp only [currentUsers, sliceList, hfirst, htake]
    rw [List.getElem?_take]
    by_cases hi : i < 13
    · rw [if_pos hi, if_pos hi, List.getElem?_drop]
    · rw [if_neg hi, if_neg hi]
  · simp only [currentUsers, sliceList, hfirst, htake, List.length_take]
    omega
  · intro hp
    rw [lastPage, usersPerPage] at hp
    simp only [currentUsers, sliceList, hfirst, htake, List.length_take,
      List.length_drop]
    split <;> omega

theorem page_slice_bounds_witness :
    1 ≤ 1 ∧ 1 ≤ lastPage [u1, u2] ∧ ([u1, u2] : List UserRecord) ≠ [] ∧
    (currentUsers [u1, u2] 1).length ≤ 13 ∧
    (currentUsers [u1, u2] 1)[0]? = some u1 := by
  have h := page_slice_bounds [u1, u2] 1 (by decide) (by decide) (by decide)
  refine ⟨by decide, by decide, by decide, h.2.1, ?_⟩
  rw [h.1 0]
  decide

/-- C7: Prev is disabled exactly on page 1 and Next exactly on the last page
`⌈total/13⌉`; from a page in the valid range `[1, ⌈total/13⌉]` an enabled
Prev or Next moves to a page still in the valid range; and with 14 records,
page 2 shows exactly one record, Next is disabled on page 2, and Prev is
disabled on page 1 but enabled on page 2. -/
theorem pagination_navigation (s : StoreState)
    (hp1 : 1 ≤ s.currentPage) (hp2 : s.currentPage ≤ lastPage s.users) :
    (prevDisabled s = true ↔ s.currentPage = 1) ∧
    (nextDisabled s = true ↔ s.currentPage = lastPage s.users) ∧
    (prevDisabled s = false →
      1 ≤ s.currentPage - 1 ∧ s.currentPage - 1 ≤ lastPage s.users) ∧
    (nextDisabled s = false →
      1 ≤ s.currentPage + 1 ∧ s.currentPage + 1 ≤ lastPage s.users) ∧
    (∀ users14 : List UserRecord, users14.length = 14 →
      (currentUsers users14 2).length = 1 ∧
      nextDisabled { s with users := users14, currentPage := 2 } = true ∧
      prevDisabled { s with users := users14, currentPage := 2 } = false ∧
      prevDisabled { s with users := users14, currentPage := 1 } = true) := by
  refine ⟨?_, ?_, ?_, ?_, ?_⟩
  · simp [prevDisabled]
  · simp [nextDisabled]
  · intro h
    simp [prevDisabled] at h
    omega
  · intro h
    simp [nextDisabled] at h
    omega
  · intro users14 h14
    refine ⟨?_, ?_, ?_, ?_⟩
    · simp only [currentUsers, sliceList, indexOfFirstUser, indexOfLastUser,
        usersPerPage, List.length_take, List.length_drop, h14]
      omega
    · simp [nextDisabled, lastPage, usersPerPage, h14]
    · simp [prevDisabled]
    · simp [prevDisabled]

def pageState : StoreState :=
  { users := List.replicate 14 u1, error := none, showForm := false,
    selectedUser := none, currentPage := 2, toasts := [] }

theorem pagination_navigation_witness :
    1 ≤ pageState.currentPage ∧
    pageState.currentPage ≤ lastPage pageState.users ∧
    nextDisabled pageState = true ∧ prevDisabled pageState = false ∧
    (currentUsers pageState.users 2).length = 1 := by
  have h := pagination_navigation pageState (by decide) (by decide)
  refine ⟨by decide, by decide, ?_, by decide, ?_⟩
  · exact (h.2.1).mpr (by decide)
  · exact ((h.2.2.2.2) pageState.users (by decide)).1

/-! ## Lemmas about the name split in the Row component -/

theorem splitSpaces_ne_nil (l : List Char) : splitSpaces l ≠ [] := by
  cases l with
  | nil => simp [splitSpaces]
  | cons c cs =>
      rw [splitSpaces]
      by_cases hc : c = ' '
      · simp [hc]
      · rw [if_neg hc]
        cases h : splitSpaces cs <;> simp

theorem headD_splitSpaces (l : List Char) :
    (splitSpaces l).headD [] = l.takeWhile (fun c => c != ' ') := by
  induction l with
  | nil => rfl
  | cons c cs ih =>
      by_cases hc : c = ' '
      · subst hc
        rw [splitSpaces, if_pos rfl, List.takeWhile_cons]
        simp
      · rw [splitSpaces, if_neg hc]
        cases h : splitSpaces cs with
        | nil => exact absurd h (splitSpaces_ne_nil cs)
        | cons t ts =>
            rw [h] at ih
            simp only [List.headD_cons] at ih ⊢
            rw [List.takeWhile_cons, if_pos (by simpa using hc), ih]

theorem getD_one_splitSpaces (l : List Char) :
    (splitSpaces l).getD 1 [] =
      ((l.dropWhile (fun c => c != ' ')).drop 1).takeWhile
        (fun c => c != ' ') := by
  induction l with
  | nil => rfl
  | cons c cs ih =>
      by_cases hc : c = ' '
      · subst hc
        rw [splitSpaces, if_pos rfl, List.dropWhile_cons]
        simp only [bne_self_eq_false, Bool.false_eq_true, if_false,
          List.drop_succ_cons, List.drop_zero, List.getD_cons_succ]
        cases h : splitSpaces cs with
        | nil => exact absurd h (splitSpaces_ne_nil cs)
        | cons t ts =>
            have hh := headD_splitSpaces cs
            rw [h] at hh
            simp only [List.headD_cons] at hh
            simpa using hh
      · rw [splitSpaces, if_neg hc]
        cases h : splitSpaces cs with
        | nil => exact absurd h (splitSpaces_ne_nil cs)
        | cons t ts =>
            rw [h] at ih
            rw [List.dropWhile_cons, if_pos (by simpa using hc)]
            simpa using ih

theorem count_space_afterFirstSpace (d : List Char) (h : d.count ' ' ≤ 1) :
    (afterFirstSpace d).count ' ' = 0 := by
  induction d with
  | nil => rfl
  | cons c cs ih =>
      by_cases hc : c = ' '
      · subst hc
        unfold afterFirstSpace
        rw [List.dropWhile_cons]
        simp only [bne_self_eq_false, Bool.false_eq_true, if_false,
          List.drop_succ_cons, List.drop_zero]
        rw [List.count_cons_self] at h
        omega
      · unfold afterFirstSpace
        rw [List.dropWhile_cons, if_pos (by simpa using hc)]
        rw [List.count_cons_of_ne (Ne.symm hc)] at h
        exact ih h

theorem takeWhile_of_count_space_zero (l : List Char)
    (h : l.count ' ' = 0) : l.takeWhile (fun c => c != ' ') = l := by
  induction l with
  | nil => rfl
  | cons c cs ih =>
      by_cases hc : c = ' '
      · subst hc
        rw [List.count_cons_self] at h
        omega
      · rw [List.takeWhile_cons, if_pos (by simpa using hc)]
        rw [List.count_cons_of_ne (Ne.symm hc)] at h
        rw [ih h]

def tolkien : UserRecord :=
  { id := JSNum.int 3, name := "John Ronald Reuel", email := "t@x.com",
    company := { name := "Oxford" } }

/-- C8 counterexample: for the record named "John Ronald Reuel" the rendered
last name is "Ronald", the second space-separated token, not the text after
the first space ("Ronald Reuel") as the claim states. -/
theorem lastName_not_text_after_first_space :
    lastName tolkien ≠ afterFirstSpace tolkien.name.data ∧
    lastName tolkien = "Ronald".data ∧
    afterFirstSpace tolkien.name.data = "Ronald Reuel".data := by
  refine ⟨?_, ?_, ?_⟩ <;> decide

/-- C8 amended: the displayed names are derived, never stored: the first name
is the text before the first space, the last name is the second
space-separated token — the text after the first space truncated at the next
space, empty when there is no space — and for names with at most one space
(the "First Last" shape of the data model) the last name coincides with the
whole text after the first space. -/
theorem derived_name_tokens (u : UserRecord) :
    firstName u = beforeFirstSpace u.name.data ∧
    lastName u = beforeFirstSpace (afterFirstSpace u.name.data) ∧
    (u.name.data.count ' ' ≤ 1 →
      lastName u = afterFirstSpace u.name.data) := by
  have h1 : firstName u = beforeFirstSpace u.name.data :=
    headD_splitSpaces u.name.data
  have h2 : lastName u = beforeFirstSpace (afterFirstSpace u.name.data) :=
    getD_one_splitSpaces u.name.data
  refine ⟨h1, h2, ?_⟩
  intro hcount
  rw [h2]
  unfold beforeFirstSpace
  exact takeWhile_of_count_space_zero _ (count_space_afterFirstSpace _ hcount)

def emptyState : StoreState :=
  { users := [], error := none, showForm := true, selectedUser := none,
    currentPage := 1, toasts := [] }

/-- C9 counterexample: from the empty collection (reachable, ids trivially
pairwise distinct), one Add yields a single record with id `-Infinity` (ids
still pairwise distinct), and a second Add duplicates that id — so the
operations do not preserve id uniqueness on every state with distinct ids. -/
theorem add_breaks_id_uniqueness :
    ((handleAddOrEditUser janeDraft emptyState).users.map
      (fun u => u.id)).Nodup ∧
    ¬ ((handleAddOrEditUser janeDraft
          (handleAddOrEditUser janeDraft emptyState)).users.map
        (fun u => u.id)).Nodup := by
  constructor <;> decide

/-- C9 amended: on a state whose record ids are pairwise distinct and all
finite integers, every operation yields pairwise-distinct ids — Add-or-Edit
(either branch), Delete (success or failure), and Load provided the fetched
data itself has pairwise-distinct ids (the data model's server-side
uniqueness); without the finiteness proviso the invariant fails: an Add on
the empty collection produces the non-integer id `-Infinity` and a second
Add duplicates it. -/
theorem id_uniqueness_preserved (s : StoreState) (user : UserRecord)
    (id0 : JSNum) (msg : String) (data : List UserRecord)
    (hnodup : (s.users.map (fun u => u.id)).Nodup)
    (hfin : ∀ u ∈ s.users, u.id ≠ JSNum.negInf) :
    ((handleAddOrEditUser user s).users.map (fun u => u.id)).Nodup ∧
    ((handleDeleteUser (.ok ()) id0 s).users.map (fun u => u.id)).Nodup ∧
    ((handleDeleteUser (.error msg) id0 s).users.map (fun u => u.id)).Nodup ∧
    ((data.map (fun u => u.id)).Nodup →
      ((fetchUsers (.ok data) s).users.map (fun u => u.id)).Nodup) ∧
    ((fetchUsers (.error msg) s).users.map (fun u => u.id)).Nodup := by
  refine ⟨?_, ?_, hnodup, fun h => h, hnodup⟩
  · cases hsel : s.selectedUser with
    | some sel =>
        simp only [handleAddOrEditUser, hsel]
        have hmap :
            (s.users.map (fun u => if u.id = user.id then user else u)).map
              (fun u => u.id) = s.users.map (fun u => u.id) := by
          rw [List.map_map]
          refine List.map_congr_left ?_
          intro u _
          by_cases h : u.id = user.id <;> simp [h]
        rw [hmap]
        exact hnodup
    | none =>
        simp only [handleAddOrEditUser, hsel, List.map_append, List.map_cons,
          List.map_nil]
        rw [List.nodup_append]
        refine ⟨hnodup, List.nodup_singleton _, ?_⟩
        intro a ha hb
        simp only [List.mem_singleton] at hb
        subst hb
        refine add1_mathMax_not_mem (s.users.map (fun u => u.id)) ?_ ha
        intro x hx
        obtain ⟨u, hu, rfl⟩ := List.mem_map.mp hx
        exact hfin u hu
  · exact List.Nodup.sublist
      (List.Sublist.map (fun u => u.id) (List.filter_sublist s.users)) hnodup

theorem id_uniqueness_preserved_witness :
    (baseState.users.map (fun u => u.id)).Nodup ∧
    (∀ u ∈ baseState.users, u.id ≠ JSNum.negInf) ∧
    ((handleAddOrEditUser janeDraft baseState).users.map
      (fun u => u.id)).Nodup := by
  have h := id_uniqueness_preserved baseState janeDraft (JSNum.int 1) "x" []
    (by decide) (by decide)
  exact ⟨by decide, by decide, h.1⟩

/-- C10: with no selection and an empty collection, Add-or-Edit still appends
exactly one record (the length becomes 1), but its id is `Math.max` of an
empty spread plus 1 — `-Infinity` — which is not an integer id; the
empty-collection case the spec leaves open is not guarded in the code. -/
theorem add_on_empty_collection (user : UserRecord) (s : StoreState)
    (hsel : s.selectedUser = none) (hempty : s.users = []) :
    (handleAddOrEditUser user s).users.length = 1 ∧
    (handleAddOrEditUser user s).users =
      [{ user with id := (mathMax []).add1 }] ∧
    (∀ u ∈ (handleAddOrEditUser user s).users, u.id = JSNum.negInf) ∧
    (∀ u ∈ (handleAddOrEditUser user s).users, ∀ n : Int,
      u.id ≠ JSNum.int n) := by
  simp [handleAddOrEditUser, hsel, hempty, mathMax, JSNum.add1]

theorem add_on_empty_collection_witness :
    emptyState.selectedUser = none ∧ emptyState.users = [] ∧
    (handleAddOrEditUser janeDraft emptyState).users.length = 1 ∧
    (∀ u ∈ (handleAddOrEditUser janeDraft emptyState).users,
      u.id = JSNum.negInf) := by
  have h := add_on_empty_collection janeDraft emptyState rfl rfl
  exact ⟨rfl, rfl, h.1, h.2.2.1⟩
